import Mathlib

/-!
Verification of the dining-philosophers synchronization engine
(`BinarySemaphore` and `PhilosophersSync`) against its specification.

The C++ source consists of a binary semaphore built from a mutex and a
condition variable, and a `PhilosophersSync` engine holding a state vector
`states_` (one of `THINKING`, `HUNGRY`, `EATING` per philosopher) and one
`BinarySemaphore` per philosopher, all state transitions serialized under a
single mutex `m_`.

Shallow embedding conventions:
- per-philosopher states form a `List State`; vector indexing `states_[i]`
  becomes `List.getD` with default `THINKING` (all source accesses are
  in-bounds, so the default is never exercised in reachable configurations);
- the semaphore's `size_t v_` is a `Nat` (clamped to 0/1 by the constructor,
  exactly as the source clamps with `min`/`max`);
- a blocking `acquire` is split into its two source branches: the fast path
  (`v_ == 1`: consume and return, never blocks) returns `some` of the new
  value, and `none` when the caller would instead enter `cv_.wait`; the wait
  branch is modelled by `acquireWake`, a function of the semaphore value at
  wake-up time (the wait predicate guarantees that value is 1);
- `tryToEat` additionally returns the list of semaphore indices it released,
  so that "released exactly once" is observable; `applyReleases` folds those
  release calls over the semaphore vector.
-/

/-- Philosopher states, from the source enum `PhilosophersSync::State`. -/
inductive State where
  | THINKING
  | HUNGRY
  | EATING
deriving DecidableEq, Repr

/-- Binary semaphore value holder; the source field is `size_t v_`. -/
structure BinarySemaphore where
  v : Nat
deriving DecidableEq, Repr

namespace BinarySemaphore

/-- Constructor `BinarySemaphore(size_t v = 0)`: stores
`min(1, max(0, v))`; on `Nat`, `max 0 v = v`. -/
def init (v : Nat) : BinarySemaphore := ⟨min 1 (max 0 v)⟩

/-- Source `release()`: sets `v_ = 1` unconditionally (then notifies one
waiter; the notification itself carries no state beyond `v_`). -/
def release (_ : BinarySemaphore) : BinarySemaphore := ⟨1⟩

/-- Source `acquire()`, fast path: under the semaphore's own lock, if
`v_ == 1` it sets `v_ = 0` and returns (`some` of the new state, no
blocking); otherwise the caller enters `cv_.wait` (modelled as `none`:
this call blocks). -/
def acquireFast (b : BinarySemaphore) : Option BinarySemaphore :=
  if b.v = 1 then some ⟨0⟩ else none

/-- Source `acquire()`, wait branch: `cv_.wait(lg, [this]{ return v_ == 1; })`
returns once the predicate holds, and the function then returns with no
further statement — in particular it does NOT write `v_ = 0`. The argument
is the semaphore state at wake-up time; the result is the state when
`acquire` returns, which is unchanged. -/
def acquireWake (b : BinarySemaphore) : BinarySemaphore := b

end BinarySemaphore

/-- Eligibility test of `PhilosophersSync::tryToEat` (source lines 160-162):
`states_[pid] == HUNGRY && states_[(pid+n-1) % n] != EATING &&
states_[(pid+1) % n] != EATING`. -/
def canEat (n pid : Nat) (s : List State) : Prop :=
  s.getD pid State.THINKING = State.HUNGRY ∧
  s.getD ((pid + n - 1) % n) State.THINKING ≠ State.EATING ∧
  s.getD ((pid + 1) % n) State.THINKING ≠ State.EATING

instance (n pid : Nat) (s : List State) : Decidable (canEat n pid s) := by
  unfold canEat; infer_instance

/-- Source `PhilosophersSync::tryToEat(pid)` (lines 159-168): if `pid` is
hungry and neither ring neighbor is eating, set `states_[pid] = EATING` and
release `pid`'s semaphore; otherwise do nothing. The second component lists
the semaphore indices released by this call, in order. -/
def tryToEat (n pid : Nat) (s : List State) : List State × List Nat :=
  if canEat n pid s then (s.set pid State.EATING, [pid]) else (s, [])

/-- Fold a list of `release()` calls (by semaphore index) over the semaphore
vector; each call is the source's `sems_[i]->release()`. -/
def applyReleases (ev : List Nat) (g : List BinarySemaphore) : List BinarySemaphore :=
  ev.foldl (fun acc i => acc.set i ((acc.getD i ⟨0⟩).release)) g

/-- The engine: `numPhils_`, `states_`, and the semaphore vector `sems_`. -/
structure PhilosophersSync where
  numPhils : Nat
  states : List State
  sems : List BinarySemaphore
deriving DecidableEq, Repr

namespace PhilosophersSync

/-- Constructor `PhilosophersSync(size_t n)` (lines 113-118): sets
`numPhils_ = n`, `states_ = vector(n, THINKING)`, and pushes `n` semaphores
constructed with value `0`. The public interface allows a construction
error (`Engine | ConstructionError`), hence the `Option`; the source
constructor has no failing path, so the result is always `some`. -/
def new (n : Nat) : Option PhilosophersSync :=
  some ⟨n, List.replicate n State.THINKING, List.replicate n (BinarySemaphore.init 0)⟩

/-- Source `getStates()` (lines 142-149): copies `states_` under the lock
and returns the copy; it mutates nothing. -/
def getStates (e : PhilosophersSync) : List State := e.states

/-- Source `takeForks(pid)` (lines 124-133). Critical section under `m_`:
`states_[pid] = HUNGRY; tryToEat(pid);`. After the lock is released the
caller runs `sems_[pid]->acquire()`. The `Bool` result is `true` when that
`acquire` blocks (slow path: the semaphore value was not 1 at the check),
`false` when it returns immediately after consuming the permit. -/
def takeForks (pid : Nat) (e : PhilosophersSync) : PhilosophersSync × Bool :=
  let p := tryToEat e.numPhils pid (e.states.set pid State.HUNGRY)
  let g1 := applyReleases p.2 e.sems
  match (g1.getD pid ⟨0⟩).acquireFast with
  | some b => (⟨e.numPhils, p.1, g1.set pid b⟩, false)
  | none => (⟨e.numPhils, p.1, g1⟩, true)

/-- State-vector effect of the `takeForks` critical section. -/
def takeForksS (n pid : Nat) (s : List State) : List State :=
  (tryToEat n pid (s.set pid State.HUNGRY)).1

/-- State-vector effect of `putForks(pid)` (lines 135-140), all under `m_`:
`states_[pid] = THINKING; tryToEat((pid+1) % n); tryToEat((pid+n-1) % n);`
— the `(pid+1) % n` neighbor is evaluated first. Also returns the released
semaphore indices, in call order. -/
def putForksS (n pid : Nat) (s : List State) : List State × List Nat :=
  let s1 := s.set pid State.THINKING
  let p1 := tryToEat n ((pid + 1) % n) s1
  let p2 := tryToEat n ((pid + n - 1) % n) p1.1
  (p2.1, p1.2 ++ p2.2)

/-- Source `putForks(pid)` on the full engine: the state-vector effect of
`putForksS` plus the semaphore releases it performs. -/
def putForks (pid : Nat) (e : PhilosophersSync) : PhilosophersSync × List Nat :=
  let p := putForksS e.numPhils pid e.states
  (⟨e.numPhils, p.1, applyReleases p.2 e.sems⟩, p.2)

end PhilosophersSync

/-- State vectors reachable from the initial all-`THINKING` configuration by
any finite sequence of well-formed calls: `takeForks pid` requires
`states_[pid] = THINKING` and `putForks pid` requires
`states_[pid] = EATING` (the spec's preconditions), with `pid` in range.
Every mutation of `states_` in the source happens inside one of these two
lock-protected critical sections, so any concurrent execution's state
vector is reachable in this relation. -/
inductive Reachable (n : Nat) : List State → Prop where
  | init : Reachable n (List.replicate n State.THINKING)
  | take (s : List State) (pid : Nat) (hp : pid < n)
      (hs : s.getD pid State.THINKING = State.THINKING)
      (h : Reachable n s) : Reachable n (PhilosophersSync.takeForksS n pid s)
  | put (s : List State) (pid : Nat) (hp : pid < n)
      (hs : s.getD pid State.THINKING = State.EATING)
      (h : Reachable n s) : Reachable n ((PhilosophersSync.putForksS n pid s).1)

/-- The adjacency-exclusion invariant: no two ring-adjacent philosophers are
simultaneously `EATING`. -/
def adjacentFree (n : Nat) (s : List State) : Prop :=
  ∀ i, i < n →
    ¬(s.getD i State.THINKING = State.EATING ∧
      s.getD ((i + 1) % n) State.THINKING = State.EATING)

/-- Lock and semaphore events, in source order, of one engine call. `lockAcq`
and `lockRel` are acquisition and release of the engine mutex `m_`;
`gateAcquire i` is the potentially blocking `sems_[i]->acquire()`;
`gateRelease i` is `sems_[i]->release()`; `writeState i st` is
`states_[i] = st`. -/
inductive Ev where
  | lockAcq
  | lockRel
  | gateAcquire (pid : Nat)
  | gateRelease (pid : Nat)
  | writeState (pid : Nat) (st : State)
deriving DecidableEq, Repr

/-- Events performed by `tryToEat(pid)` (always called with `m_` held):
either the promotion write plus one semaphore release, or nothing. -/
def tryToEatEvents (n pid : Nat) (s : List State) : List Ev :=
  if canEat n pid s then [Ev.writeState pid State.EATING, Ev.gateRelease pid] else []

/-- Event trace of `takeForks(pid)` (lines 124-133): the `lock_guard` scope
opens `m_`, writes `HUNGRY`, runs `tryToEat(pid)`, and closes `m_`; only
then does the caller run `sems_[pid]->acquire()`. -/
def takeForksEvents (n pid : Nat) (s : List State) : List Ev :=
  [Ev.lockAcq, Ev.writeState pid State.HUNGRY]
    ++ tryToEatEvents n pid (s.set pid State.HUNGRY)
    ++ [Ev.lockRel, Ev.gateAcquire pid]

/-- Event trace of `putForks(pid)` (lines 135-140): everything happens with
`m_` held; no semaphore `acquire` occurs at all. -/
def putForksEvents (n pid : Nat) (s : List State) : List Ev :=
  [Ev.lockAcq, Ev.writeState pid State.THINKING]
    ++ tryToEatEvents n ((pid + 1) % n) (s.set pid State.THINKING)
    ++ tryToEatEvents n ((pid + n - 1) % n)
        (tryToEat n ((pid + 1) % n) (s.set pid State.THINKING)).1
    ++ [Ev.lockRel]

/-- Nesting depth of the engine mutex after executing a trace prefix. -/
def lockDepth (tr : List Ev) : Nat :=
  tr.foldl
    (fun d e =>
      match e with
      | Ev.lockAcq => d + 1
      | Ev.lockRel => d - 1
      | _ => d)
    0

/-- Whether the engine mutex is held at the moment event `i` of the trace
executes (i.e. after the events strictly before it). -/
def lockHeldWhen (tr : List Ev) (i : Nat) : Bool :=
  decide (0 < lockDepth (tr.take i))

/-! Helper lemmas shared by the claim theorems. -/

theorem getD_set_self {α : Type} (l : List α) {i : Nat} (h : i < l.length) (a d : α) :
    (l.set i a).getD i d = a := by
  simp [List.getD_eq_getElem?_getD, List.getElem?_set_self h]

theorem getD_set_ne {α : Type} (l : List α) {i j : Nat} (h : i ≠ j) (a d : α) :
    (l.set i a).getD j d = l.getD j d := by
  simp [List.getD_eq_getElem?_getD, List.getElem?_set_ne h]

theorem getD_replicate {α : Type} (n i : Nat) (a : α) :
    (List.replicate n a).getD i a = a := by
  rw [List.getD_eq_getElem?_getD, List.getElem?_replicate]
  split <;> rfl

theorem tryToEat_length (n pid : Nat) (s : List State) :
    (tryToEat n pid s).1.length = s.length := by
  rw [tryToEat]
  split <;> simp

theorem reachable_length {n : Nat} {s : List State} (h : Reachable n s) :
    s.length = n := by
  induction h with
  | init => simp
  | take s pid hp hs h ih =>
      show (PhilosophersSync.takeForksS n pid s).length = n
      rw [PhilosophersSync.takeForksS, tryToEat_length, List.length_set, ih]
  | put s pid hp hs h ih =>
      show ((PhilosophersSync.putForksS n pid s).1).length = n
      simp only [PhilosophersSync.putForksS]
      rw [tryToEat_length, tryToEat_length, List.length_set, ih]

theorem succ_mod_ne_self {n pid : Nat} (hn : 2 ≤ n) (hpid : pid < n) :
    (pid + 1) % n ≠ pid := by
  rcases Nat.lt_or_ge (pid + 1) n with h | h
  · rw [Nat.mod_eq_of_lt h]
    omega
  · have h1 : pid + 1 = n := by omega
    rw [h1, Nat.mod_self]
    omega

theorem pred_index_of_succ_mod {n i pid : Nat} (hn : 2 ≤ n) (hi : i < n)
    (hpid : pid < n) (h : (i + 1) % n = pid) : i = (pid + n - 1) % n := by
  rcases Nat.lt_or_ge (i + 1) n with h1 | h1
  · rw [Nat.mod_eq_of_lt h1] at h
    have h2 : pid + n - 1 = i + n := by omega
    rw [h2, Nat.add_mod_right, Nat.mod_eq_of_lt hi]
  · have h2 : i + 1 = n := by omega
    rw [h2, Nat.mod_self] at h
    subst h
    have h3 : 0 + n - 1 = n - 1 := by omega
    rw [h3, Nat.mod_eq_of_lt (by omega)]
    omega

theorem adjacentFree_set {n : Nat} {s : List State} (hInv : adjacentFree n s)
    (pid : Nat) {x : State} (hx : x ≠ State.EATING) :
    adjacentFree n (s.set pid x) := by
  intro i hi hcon
  obtain ⟨h1, h2⟩ := hcon
  by_cases hlen : pid < s.length
  · by_cases e1 : i = pid
    · subst e1
      rw [getD_set_self s hlen] at h1
      exact hx h1
    · rw [getD_set_ne s (fun hh => e1 hh.symm)] at h1
      by_cases e2 : (i + 1) % n = pid
      · rw [e2, getD_set_self s hlen] at h2
        exact hx h2
      · rw [getD_set_ne s (fun hh => e2 hh.symm)] at h2
        exact hInv i hi ⟨h1, h2⟩
  · rw [List.set_eq_of_length_le (by omega)] at h1 h2
    exact hInv i hi ⟨h1, h2⟩

theorem adjacentFree_tryToEat {n pid : Nat} {s : List State} (hn : 2 ≤ n)
    (hlen : s.length = n) (hpid : pid < n) (hInv : adjacentFree n s) :
    adjacentFree n (tryToEat n pid s).1 := by
  by_cases hc : canEat n pid s
  · obtain ⟨hH, hL, hR⟩ := hc
    rw [tryToEat, if_pos ⟨hH, hL, hR⟩]
    intro i hi hcon
    obtain ⟨h1, h2⟩ := hcon
    have hplen : pid < s.length := by omega
    by_cases e1 : i = pid
    · subst e1
      have hne : (i + 1) % n ≠ i := succ_mod_ne_self hn hpid
      rw [getD_set_ne s (fun hh => hne hh.symm)] at h2
      exact hR h2
    · rw [getD_set_ne s (fun hh => e1 hh.symm)] at h1
      by_cases e2 : (i + 1) % n = pid
      · have hieq : i = (pid + n - 1) % n := pred_index_of_succ_mod hn hi hpid e2
        rw [hieq] at h1
        exact hL h1
      · rw [getD_set_ne s (fun hh => e2 hh.symm)] at h2
        exact hInv i hi ⟨h1, h2⟩
  · rw [tryToEat, if_neg hc]
    exact hInv

theorem gateAcquire_not_mem_tryToEatEvents (q n j : Nat) (t : List State) :
    Ev.gateAcquire q ∉ tryToEatEvents n j t := by
  rw [tryToEatEvents]
  split <;> simp

/-- Claim C2: `tryToEat(pid)` promotes exactly when `pid` is `HUNGRY` and
neither ring neighbor is `EATING`; in that case it sets
`states_[pid] = EATING` and releases `pid`'s semaphore exactly once (the
release list is precisely `[pid]`, and folding it over the semaphore vector
sets semaphore `pid` to available); in every other case it changes no state
and releases no semaphore. -/
theorem tryToEat_promotes_iff (n pid : Nat) (s : List State) (g : List BinarySemaphore) :
    (canEat n pid s →
      tryToEat n pid s = (s.set pid State.EATING, [pid]) ∧
      applyReleases (tryToEat n pid s).2 g = g.set pid ⟨1⟩) ∧
    (¬ canEat n pid s →
      tryToEat n pid s = (s, []) ∧
      applyReleases (tryToEat n pid s).2 g = g) := by
  constructor
  · intro h
    rw [tryToEat, if_pos h]
    exact ⟨rfl, rfl⟩
  · intro h
    rw [tryToEat, if_neg h]
    exact ⟨rfl, rfl⟩

/-- Witness for C2: the promotion branch evaluated on a concrete engine
configuration with `n = 3`, `pid = 0`, state `[HUNGRY, THINKING, THINKING]`. -/
theorem tryToEat_promotes_iff_witness :
    tryToEat 3 0 [State.HUNGRY, State.THINKING, State.THINKING] =
      ([State.EATING, State.THINKING, State.THINKING], [0]) ∧
    applyReleases (tryToEat 3 0 [State.HUNGRY, State.THINKING, State.THINKING]).2
      [⟨0⟩, ⟨0⟩, ⟨0⟩] = [⟨1⟩, ⟨0⟩, ⟨0⟩] :=
  (tryToEat_promotes_iff 3 0 [State.HUNGRY, State.THINKING, State.THINKING]
    [⟨0⟩, ⟨0⟩, ⟨0⟩]).1 (by decide)

/-- Claim C3 (the claim is about the intended binary-semaphore contract;
the code's wait branch violates it): starting from an unavailable semaphore,
`acquire` takes the blocking path (`acquireFast` is `none`); a `release`
makes the value 1 and wakes the waiter; but the woken `acquire` returns with
the value still 1 — the permit is NOT consumed (`v ≠ 0`), so a further
`acquire` immediately succeeds instead of blocking. -/
theorem acquire_wake_leaves_value_available :
    BinarySemaphore.acquireFast (BinarySemaphore.init 0) = none ∧
    BinarySemaphore.release (BinarySemaphore.init 0) = ⟨1⟩ ∧
    BinarySemaphore.acquireWake ⟨1⟩ = ⟨1⟩ ∧
    (BinarySemaphore.acquireWake ⟨1⟩).v ≠ 0 ∧
    BinarySemaphore.acquireFast (BinarySemaphore.acquireWake ⟨1⟩) = some ⟨0⟩ := by
  decide

/-- Claim C4: `release` is idempotent and single-permit — two consecutive
`release()` calls from any semaphore state leave the value available (1, no
count accumulates); the next `acquire` takes the fast path (returns
immediately) and consumes exactly the one permit (new value 0); a second
`acquire` after that blocks (`acquireFast` is `none`). -/
theorem release_idempotent_single_permit (b : BinarySemaphore) :
    b.release.release = ⟨1⟩ ∧
    BinarySemaphore.acquireFast b.release.release = some ⟨0⟩ ∧
    BinarySemaphore.acquireFast ⟨0⟩ = none :=
  ⟨rfl, rfl, rfl⟩

/-- Claim C5, amended: construction succeeds for EVERY `n` (the source
constructor performs no validation and has no failing path), with `numPhils`
set to `n`, all `n` states `THINKING`, and all `n` semaphores unavailable
(value 0). -/
theorem new_succeeds_for_all_n (n : Nat) :
    ∃ e, PhilosophersSync.new n = some e ∧
      e.numPhils = n ∧
      e.states = List.replicate n State.THINKING ∧
      e.states.length = n ∧
      e.sems.length = n ∧
      ∀ b ∈ e.sems, b.v = 0 := by
  refine ⟨_, rfl, rfl, rfl, List.length_replicate .., List.length_replicate .., ?_⟩
  intro b hb
  rw [List.eq_of_mem_replicate hb]
  rfl

/-- Counterexample to C5 as stated: for `n = 0` (the only natural below 1)
construction does NOT fail — the engine is created. -/
theorem new_zero_succeeds :
    (PhilosophersSync.new 0).isSome = true ∧ 0 < 1 := by decide

/-- Claim C7: with `n = 3` and all actors `THINKING`, `takeForks 0` promotes
actor 0 synchronously (its own `tryToEat` released its semaphore, so the
trailing `acquire` takes the fast path and the call does not block), leaving
the state vector `[EATING, THINKING, THINKING]`. -/
theorem immediate_promotion_n3 :
    PhilosophersSync.new 3 =
      some ⟨3, List.replicate 3 State.THINKING, List.replicate 3 (BinarySemaphore.init 0)⟩ ∧
    PhilosophersSync.takeForks 0
      ⟨3, List.replicate 3 State.THINKING, List.replicate 3 (BinarySemaphore.init 0)⟩ =
      (⟨3, [State.EATING, State.THINKING, State.THINKING],
        List.replicate 3 ⟨0⟩⟩, false) := by
  decide

/-- Claim C10: for `n = 1` both neighbor indices of actor 0 collapse to 0
itself; a `HUNGRY` actor is not `EATING`, so the promotion check passes and
`takeForks 0` from `THINKING` always promotes synchronously and returns
without blocking — whatever value actor 0's semaphore held beforehand. -/
theorem single_actor_always_promotes :
    ((0 + 1 - 1) % 1 = 0 ∧ (0 + 1) % 1 = 0) ∧
    PhilosophersSync.new 1 = some ⟨1, [State.THINKING], [⟨0⟩]⟩ ∧
    ∀ v : Nat, PhilosophersSync.takeForks 0 ⟨1, [State.THINKING], [⟨v⟩]⟩ =
      (⟨1, [State.EATING], [⟨0⟩]⟩, false) :=
  ⟨by decide, by decide, fun v => by
    simp [PhilosophersSync.takeForks, tryToEat, canEat, applyReleases,
      BinarySemaphore.acquireFast, BinarySemaphore.release]⟩

/-- Claim C1, amended to `n ≥ 2`: in every state vector reachable by
well-formed `takeForks`/`putForks` calls on an engine with at least two
philosophers, no two ring-adjacent philosophers are `EATING`
simultaneously. (For `n = 1`, actor 0 is its own neighbor and the invariant
as stated fails; see the counterexample.) -/
theorem reachable_adjacentFree (n : Nat) (s : List State) (hn : 2 ≤ n)
    (h : Reachable n s) : adjacentFree n s := by
  induction h with
  | init =>
      intro i hi hcon
      have h1 := hcon.1
      rw [getD_replicate] at h1
      exact State.noConfusion h1
  | take s pid hp hs hr ih =>
      have hlen : (s.set pid State.HUNGRY).length = n := by
        rw [List.length_set, reachable_length hr]
      exact adjacentFree_tryToEat hn hlen hp (adjacentFree_set ih pid (by decide))
  | put s pid hp hs hr ih =>
      have l0 : (s.set pid State.THINKING).length = n := by
        rw [List.length_set, reachable_length hr]
      have h0 : adjacentFree n (s.set pid State.THINKING) :=
        adjacentFree_set ih pid (by decide)
      have hp1 : (pid + 1) % n < n := Nat.mod_lt _ (by omega)
      have h1 : adjacentFree n (tryToEat n ((pid + 1) % n) (s.set pid State.THINKING)).1 :=
        adjacentFree_tryToEat hn l0 hp1 h0
      have l1 : (tryToEat n ((pid + 1) % n) (s.set pid State.THINKING)).1.length = n := by
        rw [tryToEat_length, l0]
      have hp2 : (pid + n - 1) % n < n := Nat.mod_lt _ (by omega)
      exact adjacentFree_tryToEat hn l1 hp2 h1

/-- Witness for C1 (amended): the invariant holds at the initial
configuration of the three-philosopher engine. -/
theorem reachable_adjacentFree_witness :
    adjacentFree 3 (List.replicate 3 State.THINKING) :=
  reachable_adjacentFree 3 (List.replicate 3 State.THINKING) (by decide) Reachable.init

/-- Counterexample to C1 as stated: with `n = 1`, the state `[EATING]` is
reachable (actor 0 calls `takeForks 0` from the initial state and is
promoted, since its only "neighbor" is itself and `HUNGRY ≠ EATING`), yet
actor 0 and its ring successor `(0+1) % 1 = 0` are then both `EATING`. -/
theorem adjacency_fails_for_single_philosopher :
    Reachable 1 [State.EATING] ∧ ¬ adjacentFree 1 [State.EATING] := by
  constructor
  · have h1 := Reachable.take (n := 1) (List.replicate 1 State.THINKING) 0
      (by decide) (by decide) Reachable.init
    have h2 : PhilosophersSync.takeForksS 1 0 (List.replicate 1 State.THINKING) =
        [State.EATING] := by decide
    rwa [h2] at h1
  · intro h
    exact h 0 (by decide) ⟨rfl, rfl⟩

/-- Claim C8: `getStates` on any reachable engine configuration returns a
sequence of exactly `numPhils` elements, each one of the three valid state
values; the result is the engine's state vector itself (the source copies it
under the lock), and being a pure function of the engine, the call leaves
the state vector and all semaphores unchanged. -/
theorem getStates_shape (n : Nat) (s : List State) (g : List BinarySemaphore)
    (h : Reachable n s) :
    (PhilosophersSync.getStates ⟨n, s, g⟩).length = n ∧
    (∀ st ∈ PhilosophersSync.getStates ⟨n, s, g⟩,
      st = State.THINKING ∨ st = State.HUNGRY ∨ st = State.EATING) ∧
    PhilosophersSync.getStates ⟨n, s, g⟩ = s :=
  ⟨reachable_length h, fun st _ => by cases st <;> simp, rfl⟩

/-- Witness for C8: the initial two-philosopher configuration. -/
theorem getStates_shape_witness :
    (PhilosophersSync.getStates ⟨2, List.replicate 2 State.THINKING, []⟩).length = 2 ∧
    (∀ st ∈ PhilosophersSync.getStates ⟨2, List.replicate 2 State.THINKING, []⟩,
      st = State.THINKING ∨ st = State.HUNGRY ∨ st = State.EATING) ∧
    PhilosophersSync.getStates ⟨2, List.replicate 2 State.THINKING, []⟩ =
      List.replicate 2 State.THINKING :=
  getStates_shape 2 (List.replicate 2 State.THINKING) [] Reachable.init

/-- Claim C6: for every engine size `n`, every `pid < n` with
`states_[pid] = EATING`, and every state and semaphore vector, `putForks pid`
sets `states_[pid] = THINKING` and then evaluates the promotion rule for
both neighbors in the source's fixed order — first for `(pid+1) % n` against
the post-release state, then for `(pid+n-1) % n` against the state AFTER the
first evaluation (so a successor promoted by the first evaluation is visible
to the second); each evaluation that fires promotes that neighbor and
releases exactly its semaphore, and nothing else changes. In particular,
when both neighbors are eligible only because of this release and conflict
with each other, the `(pid+1) % n` neighbor is the one promoted (first
branch: its rule is checked first, and the predecessor's check then sees it
`EATING`). The right-hand side is stated solely with the promotion
predicate `canEat` and primitive vector updates, never with `tryToEat`. -/
theorem putForks_evaluates_both_neighbors_in_order (n pid : Nat) (s : List State)
    (g : List BinarySemaphore) (_hp : pid < n)
    (_hE : s.getD pid State.THINKING = State.EATING) :
    PhilosophersSync.putForks pid ⟨n, s, g⟩ =
      if canEat n ((pid + 1) % n) (s.set pid State.THINKING) then
        if canEat n ((pid + n - 1) % n)
            ((s.set pid State.THINKING).set ((pid + 1) % n) State.EATING) then
          (⟨n, ((s.set pid State.THINKING).set ((pid + 1) % n) State.EATING).set
              ((pid + n - 1) % n) State.EATING,
            (g.set ((pid + 1) % n) ⟨1⟩).set ((pid + n - 1) % n) ⟨1⟩⟩,
            [(pid + 1) % n, (pid + n - 1) % n])
        else
          (⟨n, (s.set pid State.THINKING).set ((pid + 1) % n) State.EATING,
            g.set ((pid + 1) % n) ⟨1⟩⟩, [(pid + 1) % n])
      else
        if canEat n ((pid + n - 1) % n) (s.set pid State.THINKING) then
          (⟨n, (s.set pid State.THINKING).set ((pid + n - 1) % n) State.EATING,
            g.set ((pid + n - 1) % n) ⟨1⟩⟩, [(pid + n - 1) % n])
        else (⟨n, s.set pid State.THINKING, g⟩, []) := by
  by_cases h1 : canEat n ((pid + 1) % n) (s.set pid State.THINKING)
  · by_cases h2 : canEat n ((pid + n - 1) % n)
        ((s.set pid State.THINKING).set ((pid + 1) % n) State.EATING)
    · simp [PhilosophersSync.putForks, PhilosophersSync.putForksS, tryToEat,
        applyReleases, h1, h2, BinarySemaphore.release]
    · simp [PhilosophersSync.putForks, PhilosophersSync.putForksS, tryToEat,
        applyReleases, h1, h2, BinarySemaphore.release]
  · by_cases h2 : canEat n ((pid + n - 1) % n) (s.set pid State.THINKING)
    · simp [PhilosophersSync.putForks, PhilosophersSync.putForksS, tryToEat,
        applyReleases, h1, h2, BinarySemaphore.release]
    · simp [PhilosophersSync.putForks, PhilosophersSync.putForksS, tryToEat,
        applyReleases, h1, h2, BinarySemaphore.release]

/-- Witness for C6: `n = 3`, `pid = 0`, state `[EATING, HUNGRY, HUNGRY]`
(full contention), all semaphores unavailable: the successor (actor 1) is
promoted and its semaphore released; the predecessor (actor 2), whose check
runs second and sees actor 1 `EATING`, stays `HUNGRY`. -/
theorem putForks_evaluates_both_neighbors_in_order_witness :
    PhilosophersSync.putForks 0
      ⟨3, [State.EATING, State.HUNGRY, State.HUNGRY], [⟨0⟩, ⟨0⟩, ⟨0⟩]⟩ =
      (⟨3, [State.THINKING, State.EATING, State.HUNGRY], [⟨0⟩, ⟨1⟩, ⟨0⟩]⟩, [1]) :=
  (putForks_evaluates_both_neighbors_in_order 3 0
      [State.EATING, State.HUNGRY, State.HUNGRY] [⟨0⟩, ⟨0⟩, ⟨0⟩]
      (by decide) (by decide)).trans (by decide)

/-- Claim C9: in the event trace of any `takeForks` call, the only blocking
operation — the `gateAcquire` on the caller's own semaphore — executes with
the engine mutex not held (the `lock_guard` scope closes first), and a
`putForks` call contains no `gateAcquire` at all; hence the engine lock is
never held while a thread blocks in the semaphore's `acquire`. -/
theorem lock_released_before_gate_wait (n pid : Nat) (s : List State) (i q : Nat) :
    ((takeForksEvents n pid s).getD i Ev.lockRel = Ev.gateAcquire q →
      lockHeldWhen (takeForksEvents n pid s) i = false) ∧
    Ev.gateAcquire q ∉ putForksEvents n pid s := by
  constructor
  · intro h
    by_cases hc : canEat n pid (s.set pid State.HUNGRY)
    · have ht : takeForksEvents n pid s =
          [Ev.lockAcq, Ev.writeState pid State.HUNGRY, Ev.writeState pid State.EATING,
            Ev.gateRelease pid, Ev.lockRel, Ev.gateAcquire pid] := by
        rw [takeForksEvents, tryToEatEvents, if_pos hc]
        rfl
      rw [ht] at h ⊢
      rcases i with _ | _ | _ | _ | _ | _ | i
      · simp at h
      · simp at h
      · simp at h
      · simp at h
      · simp at h
      · rfl
      · simp [List.getD] at h
    · have ht : takeForksEvents n pid s =
          [Ev.lockAcq, Ev.writeState pid State.HUNGRY, Ev.lockRel, Ev.gateAcquire pid] := by
        rw [takeForksEvents, tryToEatEvents, if_neg hc]
        rfl
      rw [ht] at h ⊢
      rcases i with _ | _ | _ | _ | i
      · simp at h
      · simp at h
      · simp at h
      · rfl
      · simp [List.getD] at h
  · rw [putForksEvents]
    simp [gateAcquire_not_mem_tryToEatEvents]

/-- Witness for C9: `n = 3`, `pid = 0`, initial state; the `gateAcquire`
sits at index 5 of the trace, where the lock is no longer held, and
`putForks`'s trace contains no `gateAcquire`. -/
theorem lock_released_before_gate_wait_witness :
    (takeForksEvents 3 0 (List.replicate 3 State.THINKING)).getD 5 Ev.lockRel =
      Ev.gateAcquire 0 ∧
    lockHeldWhen (takeForksEvents 3 0 (List.replicate 3 State.THINKING)) 5 = false ∧
    Ev.gateAcquire 0 ∉ putForksEvents 3 0 (List.replicate 3 State.THINKING) :=
  ⟨by decide,
    (lock_released_before_gate_wait 3 0 (List.replicate 3 State.THINKING) 5 0).1 (by decide),
    (lock_released_before_gate_wait 3 0 (List.replicate 3 State.THINKING) 5 0).2⟩
